import Mathlib

/-!
Verification of the Smith-Waterman overlap aligner in
`sv_pipeline/old_smith_waterman.py`.

The Python module is embedded shallowly:

* sequences are `List Char`, the score matrix is a `List (List Int)`;
* Python indexing (negative indices wrap once by the length, anything
  further out raises `IndexError`) is `pyGet`/`pyGet2`;
* fallible code returns `Except PyErr`, where `PyErr` covers the
  exceptions the module can raise (`AssertionError` from its two
  `assert` statements, `ValueError` from `_next_move`, `IndexError`
  from indexing); `PyErr.fuelOut` is an artefact of modelling the
  `while` loop of `_traceback` with fuel and is proved unreachable for
  matrices built by `_create_score_matrix`;
* the imperative fill of `_create_score_matrix` is a fold over the
  row-major cell order, with the matrix, the running maximum and the
  recorded position threaded as explicit state (`FillState`).
-/

/-- Python index resolution for a list of length `len`: a negative index
wraps once by the length; an index still out of range is an `IndexError`
(`none`). -/
def pyIdx (len : Nat) (i : Int) : Option Nat :=
  if 0 ≤ i then
    if i < (len : Int) then some i.toNat else none
  else
    if 0 ≤ i + (len : Int) then some (i + (len : Int)).toNat else none

/-- Python `l[i]` for a list. -/
def pyGet {α : Type} (l : List α) (i : Int) : Option α :=
  (pyIdx l.length i).bind fun k => l.get? k

/-- Python `m[x][y]` for a list-of-lists matrix. -/
def pyGet2 (m : List (List Int)) (x y : Int) : Option Int :=
  (pyGet m x).bind fun row => pyGet row y

/-- In-range read of the matrix built by `_create_score_matrix`
(`matrix[i][j]` in `calc_score`; every call site is in range, which the
fill invariant below makes precise, so a plain total getter is used). -/
def getc (m : List (List Int)) (i j : Nat) : Int :=
  (m.getD i []).getD j 0

/-- In-range write `score_matrix[i][j] = score`. -/
def setc (m : List (List Int)) (i j : Nat) (v : Int) : List (List Int) :=
  m.set i ((m.getD i []).set j v)

/-- In-range read `seq[k]` of a sequence (used by `calc_score`, where the
index is always in range). -/
def sget (s : List Char) (k : Nat) : Char :=
  s.getD k (Char.ofNat 0)

/-- The exceptions the module can raise. `fuelOut` is the modelling
artefact for the fuelled `while` loop, never an actual program outcome. -/
inductive PyErr where
  | indexError : PyErr
  | valueError : String → PyErr
  | assertionError : String → PyErr
  | fuelOut : PyErr
deriving Repr, DecidableEq

/-- `END, DIAG, UP, LEFT = range(4)` of `_traceback`. -/
inductive Move where
  | END : Move
  | DIAG : Move
  | UP : Move
  | LEFT : Move
deriving Repr, DecidableEq

/-- `calc_score(matrix, x, y)` from `_create_score_matrix`: the score of
cell `(x, y)` from its upper-left, up and left neighbours, floored at 0.
`match` is a Lean keyword, hence `matchS`. -/
def calc_score (seq1 seq2 : List Char) (matrix : List (List Int)) (x y : Nat) : Int :=
  let matchS : Int := 2
  let mismatch : Int := -1
  let gap : Int := -1
  let similarity : Int := if sget seq1 (x - 1) = sget seq2 (y - 1) then matchS else mismatch
  let diag_score := getc matrix (x - 1) (y - 1) + similarity
  let up_score := getc matrix (x - 1) y + gap
  let left_score := getc matrix x (y - 1) + gap
  max 0 (max diag_score (max up_score left_score))

/-- `[[0 for _ in range(cols)] for _ in range(rows)]`. -/
def zeroMatrix (rows cols : Nat) : List (List Int) :=
  List.replicate rows (List.replicate cols 0)


/-- The mutable state of the fill loop of `_create_score_matrix`: the
matrix being written, `max_score` and `max_pos`. -/
structure FillState where
  matrix : List (List Int)
  max_score : Int
  max_pos : Option (Nat × Nat)
deriving Repr, DecidableEq

/-- One iteration of the inner loop of `_create_score_matrix`: compute
the score of cell `(i, j)`, update the running maximum on a strictly
greater score, then write the cell. -/
def fillCell (seq1 seq2 : List Char) (st : FillState) (i j : Nat) : FillState :=
  let score := calc_score seq1 seq2 st.matrix i j
  if score > st.max_score then
    { matrix := setc st.matrix i j score, max_score := score, max_pos := some (i, j) }
  else
    { matrix := setc st.matrix i j score, max_score := st.max_score, max_pos := st.max_pos }

/-- The inner loop of `_create_score_matrix` over the first `t` columns
`j = 1, …, t` of row `i`. -/
def fillRowUpTo (seq1 seq2 : List Char) (st : FillState) (i t : Nat) : FillState :=
  (List.range' 1 t).foldl (fun st j => fillCell seq1 seq2 st i j) st

/-- The inner loop `for j in range(1, cols)` of `_create_score_matrix`. -/
def fillRow (seq1 seq2 : List Char) (cols : Nat) (st : FillState) (i : Nat) : FillState :=
  fillRowUpTo seq1 seq2 st i (cols - 1)

/-- The outer loop of `_create_score_matrix` over the first `k` rows
`i = 1, …, k`, started from the all-zero matrix. -/
def fillUpTo (rows cols : Nat) (seq1 seq2 : List Char) (k : Nat) : FillState :=
  (List.range' 1 k).foldl (fillRow seq1 seq2 cols) ⟨zeroMatrix rows cols, 0, none⟩

/-- `_create_score_matrix(rows, cols, seq1, seq2)`: fill the matrix in
row-major order (`for i in range(1, rows): for j in range(1, cols)`),
then `assert max_pos is not None` — the assertion failure is the
`assertionError` outcome. -/
def _create_score_matrix (rows cols : Nat) (seq1 seq2 : List Char) :
    Except PyErr (List (List Int) × Nat × Nat) :=
  match (fillUpTo rows cols seq1 seq2 (rows - 1)).max_pos with
  | none => Except.error
      (PyErr.assertionError "the x, y position with the highest score was not found")
  | some p => Except.ok ((fillUpTo rows cols seq1 seq2 (rows - 1)).matrix, p)

/-- `_next_move(score_matrix, x, y)` from `_traceback`: compare the
diagonal, up and left neighbours; ties go to DIAG, then UP; a chosen
neighbour of value 0 signals END; the final `else` branch is the
`ValueError('invalid move during traceback')`. The three neighbour
reads use genuine Python indexing, so a negative coordinate wraps. -/
def _next_move (score_matrix : List (List Int)) (x y : Int) : Except PyErr Move :=
  match pyGet2 score_matrix (x - 1) (y - 1), pyGet2 score_matrix (x - 1) y,
      pyGet2 score_matrix x (y - 1) with
  | some diag, some up, some left =>
    if diag ≥ up ∧ diag ≥ left then
      Except.ok (if diag ≠ 0 then Move.DIAG else Move.END)
    else if up > diag ∧ up ≥ left then
      Except.ok (if up ≠ 0 then Move.UP else Move.END)
    else if left > diag ∧ left > up then
      Except.ok (if left ≠ 0 then Move.LEFT else Move.END)
    else
      Except.error (PyErr.valueError "invalid move during traceback")
  | _, _, _ => Except.error PyErr.indexError

/-- The gap symbol appended by the UP and LEFT moves. -/
def gapChar : Char := '-'

/-- The `while move != END` loop of `_traceback`, with the two
accumulator lists appended at the end exactly as the Python lists are,
and the loop counted down by fuel (the loop strictly decreases `x + y`,
so enough fuel makes `fuelOut` unreachable; see `_traceback`). -/
def tracebackLoop (score_matrix : List (List Int)) (seq1 seq2 : List Char) :
    Nat → Int → Int → List Char → List Char →
    Except PyErr (List Char × List Char × Int × Int)
  | 0, _, _, _, _ => Except.error PyErr.fuelOut
  | fuel + 1, x, y, aligned_seq1, aligned_seq2 =>
    match _next_move score_matrix x y with
    | Except.error e => Except.error e
    | Except.ok Move.END => Except.ok (aligned_seq1, aligned_seq2, x, y)
    | Except.ok Move.DIAG =>
      match pyGet seq1 (x - 1), pyGet seq2 (y - 1) with
      | some c1, some c2 =>
        tracebackLoop score_matrix seq1 seq2 fuel (x - 1) (y - 1)
          (aligned_seq1 ++ [c1]) (aligned_seq2 ++ [c2])
      | _, _ => Except.error PyErr.indexError
    | Except.ok Move.UP =>
      match pyGet seq1 (x - 1) with
      | some c1 =>
        tracebackLoop score_matrix seq1 seq2 fuel (x - 1) y
          (aligned_seq1 ++ [c1]) (aligned_seq2 ++ [gapChar])
      | none => Except.error PyErr.indexError
    | Except.ok Move.LEFT =>
      match pyGet seq2 (y - 1) with
      | some c2 =>
        tracebackLoop score_matrix seq1 seq2 fuel x (y - 1)
          (aligned_seq1 ++ [gapChar]) (aligned_seq2 ++ [c2])
      | none => Except.error PyErr.indexError

/-- `_traceback(score_matrix, start_pos, seq1, seq2)`: run the loop from
`start_pos`, then append the pair `(seq1[x-1], seq2[y-1])`
unconditionally — exactly as the source does, including the Python
negative-index wrap when `x` or `y` is 0 — and return both lists
reversed. The fuel is a generous bound on the number of iterations:
each move strictly decreases `x + y` and a coordinate below minus the
corresponding dimension raises `IndexError`, so the loop's real exit
always comes first. -/
def _traceback (score_matrix : List (List Int)) (start_pos : Nat × Nat)
    (seq1 seq2 : List Char) : Except PyErr (List Char × List Char) :=
  match tracebackLoop score_matrix seq1 seq2
      (start_pos.1 + start_pos.2 + 2 * score_matrix.length +
        2 * (score_matrix.headD []).length + 4)
      (start_pos.1 : Int) (start_pos.2 : Int) [] [] with
  | Except.error e => Except.error e
  | Except.ok (aligned_seq1, aligned_seq2, x, y) =>
    match pyGet seq1 (x - 1), pyGet seq2 (y - 1) with
    | some c1, some c2 =>
      Except.ok ((aligned_seq1 ++ [c1]).reverse, (aligned_seq2 ++ [c2]).reverse)
    | _, _ => Except.error PyErr.indexError

/-- `align(seq1, seq2)`: build the matrix, read the score at the start
position, trace back, `assert len(seq1_aligned) == len(seq2_aligned)`,
and return the aligned pair with the score. -/
def align (seq1 seq2 : List Char) : Except PyErr (List Char × List Char × Int) :=
  match _create_score_matrix (seq1.length + 1) (seq2.length + 1) seq1 seq2 with
  | Except.error e => Except.error e
  | Except.ok (score_matrix, start_pos) =>
    match pyGet2 score_matrix (start_pos.1 : Int) (start_pos.2 : Int) with
    | none => Except.error PyErr.indexError
    | some score =>
      match _traceback score_matrix start_pos seq1 seq2 with
      | Except.error e => Except.error e
      | Except.ok (seq1_aligned, seq2_aligned) =>
        if seq1_aligned.length = seq2_aligned.length then
          Except.ok (seq1_aligned, seq2_aligned, score)
        else
          Except.error (PyErr.assertionError "aligned strings are not the same size")

/-- The loop body of `_alignment_string`: the accumulator carries the
mark list and the three counters `idents`, `gaps`, `mismatches`;
`base1 == base2` marks a bar and counts an identity, otherwise a gap
symbol on either side (`'-' in (base1, base2)`) marks a blank and counts
a gap, otherwise a colon and a mismatch. -/
def alignment_step (acc : List Char × Nat × Nat × Nat) (p : Char × Char) :
    List Char × Nat × Nat × Nat :=
  if p.1 = p.2 then (acc.1 ++ ['|'], acc.2.1 + 1, acc.2.2.1, acc.2.2.2)
  else if p.1 = gapChar ∨ p.2 = gapChar then
    (acc.1 ++ [' '], acc.2.1, acc.2.2.1 + 1, acc.2.2.2)
  else (acc.1 ++ [':'], acc.2.1, acc.2.2.1, acc.2.2.2 + 1)

/-- `_alignment_string(aligned_seq1, aligned_seq2)`: walk
`zip(aligned_seq1, aligned_seq2)` with `alignment_step`. Returns the
mark list and the three counters. -/
def _alignment_string (aligned_seq1 aligned_seq2 : List Char) :
    List Char × Nat × Nat × Nat :=
  (aligned_seq1.zip aligned_seq2).foldl alignment_step ([], 0, 0, 0)

/-- Modelled from the spec: the renderer rule as §4.3 words it —
"identical non-gap symbols → mark a bar; either side is a gap symbol →
mark a blank; otherwise → a colon". It differs from `_alignment_string`
only on a position whose two symbols are both the gap symbol. -/
def alignment_string_spec (aligned_seq1 aligned_seq2 : List Char) :
    List Char × Nat × Nat × Nat :=
  (aligned_seq1.zip aligned_seq2).foldl
    (fun acc p =>
      let (alignment_string, idents, gaps, mismatches) := acc
      if p.1 = p.2 ∧ p.1 ≠ gapChar then
        (alignment_string ++ ['|'], idents + 1, gaps, mismatches)
      else if p.1 = gapChar ∨ p.2 = gapChar then
        (alignment_string ++ [' '], idents, gaps + 1, mismatches)
      else (alignment_string ++ [':'], idents, gaps, mismatches + 1))
    ([], 0, 0, 0)

/-- The dynamic-programming recurrence that the imperative fill of
`_create_score_matrix` computes: 0 on row 0 and column 0, and
`calc_score` on its three already-filled neighbours elsewhere. -/
def cellRec (seq1 seq2 : List Char) : Nat → Nat → Int
  | 0, _ => 0
  | _ + 1, 0 => 0
  | x + 1, y + 1 =>
    let similarity : Int := if sget seq1 x = sget seq2 y then 2 else -1
    max 0 (max (cellRec seq1 seq2 x y + similarity)
      (max (cellRec seq1 seq2 x (y + 1) + (-1)) (cellRec seq1 seq2 (x + 1) y + (-1))))
termination_by x y => x + y
decreasing_by all_goals omega

/-- Row-major order on cell coordinates: `(a, b)` is scanned strictly
before `(p, q)`. -/
def rmLt (a b p q : Nat) : Prop :=
  a < p ∨ (a = p ∧ b < q)

/-- The matrix has `rows` rows, each of `cols` entries. -/
def Shape (rows cols : Nat) (m : List (List Int)) : Prop :=
  m.length = rows ∧ ∀ r ∈ m, r.length = cols

/-- Cells already written when the fill has completed rows `1, …, i - 1`
(the interior cells of the first `i - 1` rows). -/
def Dfull (cols i : Nat) (a b : Nat) : Prop :=
  1 ≤ a ∧ a < i ∧ 1 ≤ b ∧ b < cols

/-- Cells already written when the fill is inside row `i`, at column `t`:
the interior cells of rows before `i`, plus columns `1, …, t` of row `i`. -/
def Dmid (cols i t : Nat) (a b : Nat) : Prop :=
  Dfull cols i a b ∨ (a = i ∧ 1 ≤ b ∧ b ≤ t)

/-- Invariant of the fill loop of `_create_score_matrix`, with `D` the
cells written so far (in row-major order): the matrix keeps its shape,
written cells hold the recurrence value, unwritten cells are still 0,
`max_score` is the maximum of 0 and the written cells' values, and
`max_pos` is the first written cell (in row-major order) attaining
`max_score` when that is positive, `none` otherwise. -/
structure FillInv (seq1 seq2 : List Char) (rows cols : Nat) (D : Nat → Nat → Prop)
    (st : FillState) : Prop where
  shape : Shape rows cols st.matrix
  entries : ∀ a b, a < rows → b < cols → D a b → getc st.matrix a b = cellRec seq1 seq2 a b
  blank : ∀ a b, a < rows → b < cols → ¬ D a b → getc st.matrix a b = 0
  score_nonneg : 0 ≤ st.max_score
  le_max : ∀ a b, a < rows → b < cols → D a b → cellRec seq1 seq2 a b ≤ st.max_score
  none_zero : st.max_pos = none → st.max_score = 0
  pos_spec : ∀ p q, st.max_pos = some (p, q) →
    D p q ∧ p < rows ∧ q < cols ∧ cellRec seq1 seq2 p q = st.max_score ∧
      0 < st.max_score ∧
      ∀ a b, a < rows → b < cols → D a b → rmLt a b p q →
        cellRec seq1 seq2 a b < st.max_score

/-- The shape and value facts the traceback needs about a matrix built by
`_create_score_matrix`: its dimensions, non-negative entries, and the
all-zero boundary row and column. -/
def GoodM (rows cols : Nat) (M : List (List Int)) : Prop :=
  Shape rows cols M ∧ (∀ a b, a < rows → b < cols → 0 ≤ getc M a b) ∧
  (∀ b, b < cols → getc M 0 b = 0) ∧ (∀ a, a < rows → getc M a 0 = 0)

/-- The mark `_alignment_string` writes for one aligned position. -/
def markOf (p : Char × Char) : Char :=
  if p.1 = p.2 then '|' else if p.1 = gapChar ∨ p.2 = gapChar then ' ' else ':'

theorem cellRec_zero_left (seq1 seq2 : List Char) (b : Nat) : cellRec seq1 seq2 0 b = 0 := by
  simp [cellRec]

theorem cellRec_zero_right (seq1 seq2 : List Char) (a : Nat) : cellRec seq1 seq2 a 0 = 0 := by
  cases a <;> simp [cellRec]

theorem cellRec_succ (seq1 seq2 : List Char) (x y : Nat) :
    cellRec seq1 seq2 (x + 1) (y + 1) =
      max 0 (max (cellRec seq1 seq2 x y + (if sget seq1 x = sget seq2 y then 2 else -1))
        (max (cellRec seq1 seq2 x (y + 1) + (-1)) (cellRec seq1 seq2 (x + 1) y + (-1)))) := by
  rw [cellRec]

theorem cellRec_nonneg (seq1 seq2 : List Char) (x y : Nat) : 0 ≤ cellRec seq1 seq2 x y := by
  match x, y with
  | 0, _ => simp [cellRec]
  | _ + 1, 0 => simp [cellRec]
  | x + 1, y + 1 => rw [cellRec_succ]; exact le_max_left 0 _

theorem cellRec_interior (seq1 seq2 : List Char) {i j : Nat} (hi : 1 ≤ i) (hj : 1 ≤ j) :
    cellRec seq1 seq2 i j =
      max 0 (max (cellRec seq1 seq2 (i - 1) (j - 1) +
          (if sget seq1 (i - 1) = sget seq2 (j - 1) then 2 else -1))
        (max (cellRec seq1 seq2 (i - 1) j + (-1)) (cellRec seq1 seq2 i (j - 1) + (-1)))) := by
  obtain ⟨x, rfl⟩ : ∃ x, i = x + 1 := ⟨i - 1, by omega⟩
  obtain ⟨y, rfl⟩ : ∃ y, j = y + 1 := ⟨j - 1, by omega⟩
  simpa using cellRec_succ seq1 seq2 x y

theorem cellRec_pos_interior (seq1 seq2 : List Char) {a b : Nat}
    (h : 0 < cellRec seq1 seq2 a b) : 1 ≤ a ∧ 1 ≤ b := by
  constructor
  · rcases Nat.eq_zero_or_pos a with rfl | ha
    · rw [cellRec_zero_left] at h; omega
    · exact ha
  · rcases Nat.eq_zero_or_pos b with rfl | hb
    · rw [cellRec_zero_right] at h; omega
    · exact hb

theorem getc_zeroMatrix (rows cols i j : Nat) : getc (zeroMatrix rows cols) i j = 0 := by
  unfold getc zeroMatrix
  by_cases hi : i < rows <;> by_cases hj : j < cols <;>
    simp [List.getD_eq_getElem?_getD, List.getElem?_replicate, hi, hj]

theorem shape_zeroMatrix (rows cols : Nat) : Shape rows cols (zeroMatrix rows cols) := by
  refine ⟨by simp [zeroMatrix], ?_⟩
  intro r hr
  have := List.eq_of_mem_replicate hr
  subst this
  simp

theorem getD_mem_of_lt {m : List (List Int)} {i : Nat} (h : i < m.length) :
    m.getD i [] ∈ m := by
  rw [List.getD_eq_getElem?_getD, List.getElem?_eq_getElem h]
  exact List.getElem_mem h

theorem row_length {rows cols : Nat} {m : List (List Int)} (h : Shape rows cols m)
    {i : Nat} (hi : i < rows) : (m.getD i []).length = cols := by
  obtain ⟨h1, h2⟩ := h
  exact h2 _ (getD_mem_of_lt (by omega))

theorem shape_setc {rows cols : Nat} {m : List (List Int)} (h : Shape rows cols m)
    {i : Nat} (hi : i < rows) (j : Nat) (v : Int) : Shape rows cols (setc m i j v) := by
  refine ⟨by simp [setc, h.1], ?_⟩
  intro r hr
  rcases List.mem_or_eq_of_mem_set hr with hmem | heq
  · exact h.2 r hmem
  · subst heq
    rw [List.length_set]
    exact row_length h hi

theorem getc_setc_self {rows cols : Nat} {m : List (List Int)} (h : Shape rows cols m)
    {i j : Nat} (hi : i < rows) (hj : j < cols) (v : Int) :
    getc (setc m i j v) i j = v := by
  have hi' : i < m.length := by rw [h.1]; exact hi
  have hrow : (m[i]?.getD []).length = cols := by
    rw [← List.getD_eq_getElem?_getD]; exact row_length h hi
  simp only [getc, setc, List.getD_eq_getElem?_getD]
  rw [List.getElem?_set_eq_of_lt _ hi']
  simp only [Option.getD_some]
  rw [List.getElem?_set_eq_of_lt _ (by omega)]
  simp

theorem getc_setc_ne {m : List (List Int)} {i j a b : Nat} (h : a ≠ i ∨ b ≠ j) (v : Int) :
    getc (setc m i j v) a b = getc m a b := by
  rcases h with h | h
  · simp only [getc, setc, List.getD_eq_getElem?_getD]
    rw [List.getElem?_set_ne (by omega)]
  · by_cases hia : a = i
    · subst hia
      by_cases hlen : a < m.length
      · simp only [getc, setc, List.getD_eq_getElem?_getD]
        rw [List.getElem?_set_eq_of_lt _ hlen]
        simp only [Option.getD_some]
        rw [List.getElem?_set_ne (by omega)]
      · rw [setc, List.set_eq_of_length_le (by omega)]
    · simp only [getc, setc, List.getD_eq_getElem?_getD]
      rw [List.getElem?_set_ne (by omega)]

theorem rmLt_irrefl (a b : Nat) : ¬ rmLt a b a b := by
  simp [rmLt]

theorem rmLt_asymm {a b p q : Nat} (h : rmLt a b p q) : ¬ rmLt p q a b := by
  simp only [rmLt] at *
  omega



theorem FillInv.congr {seq1 seq2 : List Char} {rows cols : Nat}
    {D D' : Nat → Nat → Prop} {st : FillState}
    (h : FillInv seq1 seq2 rows cols D st) (hDD : ∀ a b, D a b ↔ D' a b) :
    FillInv seq1 seq2 rows cols D' st where
  shape := h.shape
  entries := fun a b ha hb hD => h.entries a b ha hb ((hDD a b).mpr hD)
  blank := fun a b ha hb hD => h.blank a b ha hb (fun hx => hD ((hDD a b).mp hx))
  score_nonneg := h.score_nonneg
  le_max := fun a b ha hb hD => h.le_max a b ha hb ((hDD a b).mpr hD)
  none_zero := h.none_zero
  pos_spec := by
    intro p q hpq
    obtain ⟨h1, h2, h3, h4, h5, h6⟩ := h.pos_spec p q hpq
    exact ⟨(hDD p q).mp h1, h2, h3, h4, h5,
      fun a b ha hb hD hlt => h6 a b ha hb ((hDD a b).mpr hD) hlt⟩

theorem fillCell_eq_pos (seq1 seq2 : List Char) (st : FillState) (i j : Nat)
    (h : calc_score seq1 seq2 st.matrix i j > st.max_score) :
    fillCell seq1 seq2 st i j =
      ⟨setc st.matrix i j (calc_score seq1 seq2 st.matrix i j),
        calc_score seq1 seq2 st.matrix i j, some (i, j)⟩ := by
  simp only [fillCell]
  rw [if_pos h]

theorem fillCell_eq_neg (seq1 seq2 : List Char) (st : FillState) (i j : Nat)
    (h : ¬ calc_score seq1 seq2 st.matrix i j > st.max_score) :
    fillCell seq1 seq2 st i j =
      ⟨setc st.matrix i j (calc_score seq1 seq2 st.matrix i j),
        st.max_score, st.max_pos⟩ := by
  simp only [fillCell]
  rw [if_neg h]

theorem fillCell_inv {seq1 seq2 : List Char} {rows cols : Nat} {D : Nat → Nat → Prop}
    {st : FillState} (hInv : FillInv seq1 seq2 rows cols D st)
    {x y : Nat} (hx : x + 1 < rows) (hy : y + 1 < cols)
    (hInterior : ∀ a b, D a b → 1 ≤ a ∧ 1 ≤ b)
    (hBefore : ∀ a b, D a b → rmLt a b (x + 1) (y + 1))
    (hnb1 : 1 ≤ x → D x (y + 1))
    (hnb2 : 1 ≤ y → D (x + 1) y)
    (hnb3 : 1 ≤ x → 1 ≤ y → D x y) :
    FillInv seq1 seq2 rows cols
      (fun a b => D a b ∨ (a = x + 1 ∧ b = y + 1))
      (fillCell seq1 seq2 st (x + 1) (y + 1)) := by
  have hDnot : ¬ D (x + 1) (y + 1) := fun hD => rmLt_irrefl _ _ (hBefore _ _ hD)
  -- a written-or-boundary neighbour already holds its recurrence value
  have hread : ∀ a b, a < rows → b < cols → (D a b ∨ a = 0 ∨ b = 0) →
      getc st.matrix a b = cellRec seq1 seq2 a b := by
    intro a b ha hb hcase
    rcases hcase with hD | rfl | rfl
    · exact hInv.entries a b ha hb hD
    · rw [hInv.blank 0 b ha hb (fun hD => by have := (hInterior _ _ hD).1; omega),
        cellRec_zero_left]
    · rw [hInv.blank a 0 ha hb (fun hD => by have := (hInterior _ _ hD).2; omega),
        cellRec_zero_right]
  have hscore : calc_score seq1 seq2 st.matrix (x + 1) (y + 1) =
      cellRec seq1 seq2 (x + 1) (y + 1) := by
    have e1 : getc st.matrix x y = cellRec seq1 seq2 x y := by
      rcases Nat.eq_zero_or_pos x with rfl | hx1
      · exact hread 0 y (by omega) (by omega) (Or.inr (Or.inl rfl))
      · rcases Nat.eq_zero_or_pos y with rfl | hy1
        · exact hread x 0 (by omega) (by omega) (Or.inr (Or.inr rfl))
        · exact hread x y (by omega) (by omega) (Or.inl (hnb3 hx1 hy1))
    have e2 : getc st.matrix x (y + 1) = cellRec seq1 seq2 x (y + 1) := by
      rcases Nat.eq_zero_or_pos x with rfl | hx1
      · exact hread 0 (y + 1) (by omega) (by omega) (Or.inr (Or.inl rfl))
      · exact hread x (y + 1) (by omega) (by omega) (Or.inl (hnb1 hx1))
    have e3 : getc st.matrix (x + 1) y = cellRec seq1 seq2 (x + 1) y := by
      rcases Nat.eq_zero_or_pos y with rfl | hy1
      · exact hread (x + 1) 0 (by omega) (by omega) (Or.inr (Or.inr rfl))
      · exact hread (x + 1) y (by omega) (by omega) (Or.inl (hnb2 hy1))
    rw [calc_score, cellRec_succ]
    simp only [Nat.add_sub_cancel, e1, e2, e3]
  have hnotlt : ∀ p q, D p q → ¬ rmLt (x + 1) (y + 1) p q :=
    fun p q hD => rmLt_asymm (hBefore p q hD)
  have hne_of_D : ∀ a b, D a b → a ≠ x + 1 ∨ b ≠ y + 1 := by
    intro a b hD
    have := hBefore a b hD
    simp only [rmLt] at this
    omega
  have hentries : ∀ (M' : List (List Int)),
      M' = setc st.matrix (x + 1) (y + 1) (calc_score seq1 seq2 st.matrix (x + 1) (y + 1)) →
      ∀ a b, a < rows → b < cols → (D a b ∨ (a = x + 1 ∧ b = y + 1)) →
        getc M' a b = cellRec seq1 seq2 a b := by
    rintro M' rfl a b ha hb (hD | ⟨rfl, rfl⟩)
    · rw [getc_setc_ne (hne_of_D a b hD)]
      exact hInv.entries a b ha hb hD
    · rw [getc_setc_self hInv.shape (by omega) (by omega), hscore]
  have hblank : ∀ (M' : List (List Int)),
      M' = setc st.matrix (x + 1) (y + 1) (calc_score seq1 seq2 st.matrix (x + 1) (y + 1)) →
      ∀ a b, a < rows → b < cols → ¬ (D a b ∨ (a = x + 1 ∧ b = y + 1)) →
        getc M' a b = 0 := by
    rintro M' rfl a b ha hb hD'
    push_neg at hD'
    obtain ⟨hD, hnew⟩ := hD'
    have hne : a ≠ x + 1 ∨ b ≠ y + 1 := by
      by_cases hax : a = x + 1
      · exact Or.inr (fun hby => hnew hax hby)
      · exact Or.inl hax
    rw [getc_setc_ne hne]
    exact hInv.blank a b ha hb hD
  by_cases hgt : calc_score seq1 seq2 st.matrix (x + 1) (y + 1) > st.max_score
  · rw [fillCell_eq_pos seq1 seq2 st (x + 1) (y + 1) hgt]
    refine ⟨?_, ?_, ?_, ?_, ?_, ?_, ?_⟩
    · exact shape_setc hInv.shape (by omega) _ _
    · exact hentries _ rfl
    · exact hblank _ rfl
    · have := hInv.score_nonneg
      simp only
      omega
    · rintro a b ha hb (hD | ⟨rfl, rfl⟩)
      · have := hInv.le_max a b ha hb hD
        simp only
        omega
      · simp only
        rw [← hscore]
    · simp
    ·
      intro p q hpq
      simp only [Option.some_inj, Prod.mk.injEq] at hpq
      obtain ⟨rfl, rfl⟩ := hpq
      refine ⟨Or.inr ⟨rfl, rfl⟩, by omega, by omega, hscore.symm, ?_, ?_⟩
      · have := hInv.score_nonneg
        simp only
        omega
      · rintro a b ha hb (hD | ⟨rfl, rfl⟩) hlt
        · have := hInv.le_max a b ha hb hD
          simp only
          omega
        · exact absurd hlt (rmLt_irrefl _ _)
  · rw [fillCell_eq_neg seq1 seq2 st (x + 1) (y + 1) hgt]
    refine ⟨?_, ?_, ?_, ?_, ?_, ?_, ?_⟩
    · exact shape_setc hInv.shape (by omega) _ _
    · exact hentries _ rfl
    · exact hblank _ rfl
    · exact hInv.score_nonneg
    · rintro a b ha hb (hD | ⟨rfl, rfl⟩)
      · exact hInv.le_max a b ha hb hD
      · simp only
        rw [← hscore]
        omega
    · exact hInv.none_zero
    ·
      intro p q hpq
      simp only at hpq
      obtain ⟨hD, h2, h3, h4, h5, h6⟩ := hInv.pos_spec p q hpq
      refine ⟨Or.inl hD, h2, h3, h4, h5, ?_⟩
      rintro a b ha hb (hDa | ⟨rfl, rfl⟩) hlt
      · exact h6 a b ha hb hDa hlt
      · exact absurd hlt (hnotlt p q hD)

theorem fillRowUpTo_succ (seq1 seq2 : List Char) (st : FillState) (i t : Nat) :
    fillRowUpTo seq1 seq2 st i (t + 1) =
      fillCell seq1 seq2 (fillRowUpTo seq1 seq2 st i t) i (t + 1) := by
  unfold fillRowUpTo
  rw [List.range'_concat, List.foldl_append]
  simp [Nat.add_comm]

theorem fillRowUpTo_inv {seq1 seq2 : List Char} {rows cols : Nat} {i : Nat}
    (hi1 : 1 ≤ i) (hi : i < rows) :
    ∀ t, t < cols → ∀ st : FillState, FillInv seq1 seq2 rows cols (Dfull cols i) st →
      FillInv seq1 seq2 rows cols (Dmid cols i t) (fillRowUpTo seq1 seq2 st i t) := by
  intro t
  induction t with
  | zero =>
    intro _ st hInv
    unfold fillRowUpTo
    simp only [List.range'_zero, List.foldl_nil]
    exact hInv.congr (by intro a b; simp only [Dmid, Dfull]; omega)
  | succ t ih =>
    intro ht st hInv
    rw [fillRowUpTo_succ]
    obtain ⟨x, rfl⟩ : ∃ x, i = x + 1 := ⟨i - 1, by omega⟩
    have hmid := ih (by omega) st hInv
    have hcell := fillCell_inv hmid (show x + 1 < rows from hi)
      (show t + 1 < cols from ht)
      (by intro a b hD; unfold Dmid Dfull at hD; omega)
      (by intro a b hD; unfold Dmid Dfull at hD; unfold rmLt; omega)
      (by intro hx1; unfold Dmid Dfull; omega)
      (by intro hy1; unfold Dmid Dfull; omega)
      (by intro hx1 hy1; unfold Dmid Dfull; omega)
    exact hcell.congr (by intro a b; unfold Dmid Dfull; omega)

theorem fillUpTo_succ (rows cols : Nat) (seq1 seq2 : List Char) (k : Nat) :
    fillUpTo rows cols seq1 seq2 (k + 1) =
      fillRow seq1 seq2 cols (fillUpTo rows cols seq1 seq2 k) (k + 1) := by
  unfold fillUpTo
  rw [List.range'_concat, List.foldl_append]
  simp [Nat.add_comm]

theorem fillInv_init (seq1 seq2 : List Char) (rows cols : Nat) :
    FillInv seq1 seq2 rows cols (Dfull cols 1) ⟨zeroMatrix rows cols, 0, none⟩ := by
  refine ⟨shape_zeroMatrix rows cols, ?_, ?_, le_refl 0, ?_, fun _ => rfl, ?_⟩
  · intro a b _ _ hD
    simp only [Dfull] at hD
    omega
  · intro a b _ _ _
    exact getc_zeroMatrix rows cols a b
  · intro a b _ _ hD
    simp only [Dfull] at hD
    omega
  · intro p q hpq
    exact absurd hpq (by simp)

theorem fillUpTo_inv {seq1 seq2 : List Char} {rows cols : Nat} :
    ∀ k, k < rows →
      FillInv seq1 seq2 rows cols (Dfull cols (k + 1)) (fillUpTo rows cols seq1 seq2 k) := by
  intro k
  induction k with
  | zero =>
    intro _
    unfold fillUpTo
    simp only [List.range'_zero, List.foldl_nil]
    exact fillInv_init seq1 seq2 rows cols
  | succ k ih =>
    intro hk
    rw [fillUpTo_succ]
    have hbase := ih (by omega)
    by_cases hc : cols = 0
    · subst hc
      unfold fillRow fillRowUpTo
      simp only [Nat.zero_sub, List.range'_zero, List.foldl_nil]
      exact hbase.congr (by intro a b; simp only [Dfull]; omega)
    · unfold fillRow
      have hrow := fillRowUpTo_inv (show 1 ≤ k + 1 by omega) (show k + 1 < rows from hk)
        (cols - 1) (by omega) _ hbase
      exact hrow.congr (by intro a b; simp only [Dmid, Dfull]; omega)

theorem create_matrix_inv (rows cols : Nat) (seq1 seq2 : List Char) :
    FillInv seq1 seq2 rows cols (Dfull cols rows)
      (fillUpTo rows cols seq1 seq2 (rows - 1)) := by
  match rows with
  | 0 =>
    exact (fillInv_init seq1 seq2 0 cols).congr
      (by intro a b; simp only [Dfull]; omega)
  | r + 1 =>
    have h := @fillUpTo_inv seq1 seq2 (r + 1) cols r (by omega)
    simpa using h

/-- Everything `_create_score_matrix rows cols seq1 seq2 = ok (M, p, q)`
guarantees: the shape, every entry equal to the recurrence value, the
endpoint interior with the positive global maximum as its value, and
every row-major-earlier cell strictly below that value. -/
theorem create_ok_spec {rows cols : Nat} {seq1 seq2 : List Char}
    {M : List (List Int)} {p q : Nat}
    (h : _create_score_matrix rows cols seq1 seq2 = Except.ok (M, p, q)) :
    Shape rows cols M ∧
    (∀ a b, a < rows → b < cols → getc M a b = cellRec seq1 seq2 a b) ∧
    1 ≤ p ∧ p < rows ∧ 1 ≤ q ∧ q < cols ∧
    0 < cellRec seq1 seq2 p q ∧
    (∀ a b, a < rows → b < cols → cellRec seq1 seq2 a b ≤ cellRec seq1 seq2 p q) ∧
    (∀ a b, a < rows → b < cols → rmLt a b p q →
      cellRec seq1 seq2 a b < cellRec seq1 seq2 p q) := by
  have hInv := create_matrix_inv rows cols seq1 seq2
  unfold _create_score_matrix at h
  match hmp : (fillUpTo rows cols seq1 seq2 (rows - 1)).max_pos with
  | none =>
    rw [hmp] at h
    exact absurd h (by simp)
  | some pq =>
    rw [hmp] at h
    simp only [Except.ok.injEq, Prod.mk.injEq] at h
    obtain ⟨hM, hpq⟩ := h
    have hpq2 : (fillUpTo rows cols seq1 seq2 (rows - 1)).max_pos = some (p, q) := by
      rw [hmp, hpq]
    obtain ⟨hD, hp, hq, hval, hposv, hstrict⟩ := hInv.pos_spec p q hpq2
    have hent : ∀ a b, a < rows → b < cols → getc M a b = cellRec seq1 seq2 a b := by
      intro a b ha hb
      subst hM
      by_cases hDa : Dfull cols rows a b
      · exact hInv.entries a b ha hb hDa
      · rw [hInv.blank a b ha hb hDa]
        unfold Dfull at hDa
        have hab : a = 0 ∨ b = 0 := by omega
        rcases hab with rfl | rfl
        · rw [cellRec_zero_left]
        · rw [cellRec_zero_right]
    have hle : ∀ a b, a < rows → b < cols →
        cellRec seq1 seq2 a b ≤ cellRec seq1 seq2 p q := by
      intro a b ha hb
      rw [hval]
      by_cases hDa : Dfull cols rows a b
      · exact hInv.le_max a b ha hb hDa
      · unfold Dfull at hDa
        have hab : a = 0 ∨ b = 0 := by omega
        rcases hab with rfl | rfl
        · rw [cellRec_zero_left]; exact hInv.score_nonneg
        · rw [cellRec_zero_right]; exact hInv.score_nonneg
    unfold Dfull at hD
    refine ⟨hM ▸ hInv.shape, hent, by omega, by omega, by omega, by omega, ?_, hle, ?_⟩
    · rw [hval]; exact hposv
    · intro a b ha hb hlt
      rw [hval]
      by_cases hDa : Dfull cols rows a b
      · exact hstrict a b ha hb hDa hlt
      · unfold Dfull at hDa
        have hab : a = 0 ∨ b = 0 := by omega
        have h0 : cellRec seq1 seq2 a b = 0 := by
          rcases hab with rfl | rfl
          · rw [cellRec_zero_left]
          · rw [cellRec_zero_right]
        rw [h0]
        exact hposv

/-- When some in-range cell has a positive recurrence value,
`_create_score_matrix` succeeds (`max_pos` cannot stay `None`). -/
theorem create_ok_of_pos {rows cols : Nat} {seq1 seq2 : List Char} {a b : Nat}
    (ha : a < rows) (hb : b < cols) (hpos : 0 < cellRec seq1 seq2 a b) :
    ∃ M p q, _create_score_matrix rows cols seq1 seq2 = Except.ok (M, p, q) := by
  have hInv := create_matrix_inv rows cols seq1 seq2
  have hint := cellRec_pos_interior seq1 seq2 hpos
  unfold _create_score_matrix
  match hmp : (fillUpTo rows cols seq1 seq2 (rows - 1)).max_pos with
  | none =>
    have hzero := hInv.none_zero hmp
    have hD : Dfull cols rows a b := by unfold Dfull; omega
    have := hInv.le_max a b ha hb hD
    omega
  | some pq =>
    refine ⟨(fillUpTo rows cols seq1 seq2 (rows - 1)).matrix, pq.1, pq.2, ?_⟩
    simp

theorem list_get?_eq_some_getD {α : Type} (l : List α) (d : α) {i : Nat}
    (h : i < l.length) : l.get? i = some (l.getD i d) := by
  rw [List.get?_eq_getElem?, List.getElem?_eq_getElem h, List.getD_eq_getElem?_getD,
    List.getElem?_eq_getElem h]
  rfl

theorem pyGet_nat {α : Type} (l : List α) (i : Nat) (h : i < l.length) :
    pyGet l (i : Int) = l.get? i := by
  unfold pyGet pyIdx
  rw [if_pos (Int.ofNat_nonneg i), if_pos (by exact_mod_cast h)]
  rfl

theorem pyGet2_getc {rows cols : Nat} {M : List (List Int)} (hS : Shape rows cols M)
    {a b : Nat} (ha : a < rows) (hb : b < cols) :
    pyGet2 M (a : Int) (b : Int) = some (getc M a b) := by
  have hlen : a < M.length := by rw [hS.1]; exact ha
  have hrow : (M.getD a []).length = cols := row_length hS ha
  unfold pyGet2
  rw [pyGet_nat M a hlen, list_get?_eq_some_getD M [] hlen]
  show pyGet (M.getD a []) (b : Int) = some (getc M a b)
  rw [pyGet_nat _ b (by omega), list_get?_eq_some_getD _ 0 (by omega)]
  rfl


theorem create_good {rows cols : Nat} {seq1 seq2 : List Char} {M : List (List Int)}
    {p q : Nat} (h : _create_score_matrix rows cols seq1 seq2 = Except.ok (M, p, q)) :
    GoodM rows cols M := by
  obtain ⟨hS, hent, hp1, hp, hq1, hq, -, -, -⟩ := create_ok_spec h
  refine ⟨hS, ?_, ?_, ?_⟩
  · intro a b ha hb
    rw [hent a b ha hb]
    exact cellRec_nonneg seq1 seq2 a b
  · intro b hb
    rw [hent 0 b (by omega) hb, cellRec_zero_left]
  · intro a ha
    rw [hent a 0 ha (by omega), cellRec_zero_right]

theorem goodM_pos_interior {rows cols : Nat} {M : List (List Int)} (hG : GoodM rows cols M)
    {a b : Nat} (ha : a < rows) (hb : b < cols) (hpos : 0 < getc M a b) :
    1 ≤ a ∧ 1 ≤ b := by
  constructor
  · rcases Nat.eq_zero_or_pos a with rfl | h1
    · rw [hG.2.2.1 b hb] at hpos; omega
    · exact h1
  · rcases Nat.eq_zero_or_pos b with rfl | h1
    · rw [hG.2.2.2 a ha] at hpos; omega
    · exact h1

theorem next_move_good {rows cols : Nat} {M : List (List Int)} (hG : GoodM rows cols M)
    {x y : Nat} (hx1 : 1 ≤ x) (hx : x < rows) (hy1 : 1 ≤ y) (hy : y < cols) :
    ∃ mv, _next_move M (x : Int) (y : Int) = Except.ok mv ∧
      (mv = Move.DIAG → 2 ≤ x ∧ 2 ≤ y) ∧
      (mv = Move.UP → 2 ≤ x) ∧
      (mv = Move.LEFT → 2 ≤ y) := by
  have ed : (x : Int) - 1 = ((x - 1 : Nat) : Int) := by omega
  have eu : (y : Int) - 1 = ((y - 1 : Nat) : Int) := by omega
  have h1 : pyGet2 M ((x : Int) - 1) ((y : Int) - 1) = some (getc M (x - 1) (y - 1)) := by
    rw [ed, eu]; exact pyGet2_getc hG.1 (by omega) (by omega)
  have h2 : pyGet2 M ((x : Int) - 1) (y : Int) = some (getc M (x - 1) y) := by
    rw [ed]; exact pyGet2_getc hG.1 (by omega) hy
  have h3 : pyGet2 M (x : Int) ((y : Int) - 1) = some (getc M x (y - 1)) := by
    rw [eu]; exact pyGet2_getc hG.1 hx (by omega)
  unfold _next_move
  rw [h1, h2, h3]
  dsimp only
  by_cases c1 : getc M (x - 1) (y - 1) ≥ getc M (x - 1) y ∧
      getc M (x - 1) (y - 1) ≥ getc M x (y - 1)
  · rw [if_pos c1]
    by_cases hz : getc M (x - 1) (y - 1) ≠ 0
    · rw [if_pos hz]
      refine ⟨Move.DIAG, rfl, ?_, by simp, by simp⟩
      intro _
      have hpos : 0 < getc M (x - 1) (y - 1) := by
        have := hG.2.1 (x - 1) (y - 1) (by omega) (by omega)
        omega
      have := @goodM_pos_interior rows cols M hG (x - 1) (y - 1) (by omega) (by omega) hpos
      omega
    · rw [if_neg hz]
      exact ⟨Move.END, rfl, by simp, by simp, by simp⟩
  · rw [if_neg c1]
    by_cases c2 : getc M (x - 1) y > getc M (x - 1) (y - 1) ∧
        getc M (x - 1) y ≥ getc M x (y - 1)
    · rw [if_pos c2]
      by_cases hz : getc M (x - 1) y ≠ 0
      · rw [if_pos hz]
        refine ⟨Move.UP, rfl, by simp, ?_, by simp⟩
        intro _
        have hpos : 0 < getc M (x - 1) y := by
          have := hG.2.1 (x - 1) y (by omega) hy
          omega
        have := @goodM_pos_interior rows cols M hG (x - 1) y (by omega) hy hpos
        omega
      · rw [if_neg hz]
        exact ⟨Move.END, rfl, by simp, by simp, by simp⟩
    · rw [if_neg c2]
      by_cases c3 : getc M x (y - 1) > getc M (x - 1) (y - 1) ∧
          getc M x (y - 1) > getc M (x - 1) y
      · rw [if_pos c3]
        by_cases hz : getc M x (y - 1) ≠ 0
        · rw [if_pos hz]
          refine ⟨Move.LEFT, rfl, by simp, by simp, ?_⟩
          intro _
          have hpos : 0 < getc M x (y - 1) := by
            have := hG.2.1 x (y - 1) hx (by omega)
            omega
          have := @goodM_pos_interior rows cols M hG x (y - 1) hx (by omega) hpos
          omega
        · rw [if_neg hz]
          exact ⟨Move.END, rfl, by simp, by simp, by simp⟩
      · exfalso
        push_neg at c1 c2 c3
        omega

theorem tracebackLoop_succ (M : List (List Int)) (seq1 seq2 : List Char) (fuel : Nat)
    (x y : Int) (a1 a2 : List Char) :
    tracebackLoop M seq1 seq2 (fuel + 1) x y a1 a2 =
      match _next_move M x y with
      | Except.error e => Except.error e
      | Except.ok Move.END => Except.ok (a1, a2, x, y)
      | Except.ok Move.DIAG =>
        match pyGet seq1 (x - 1), pyGet seq2 (y - 1) with
        | some c1, some c2 =>
          tracebackLoop M seq1 seq2 fuel (x - 1) (y - 1) (a1 ++ [c1]) (a2 ++ [c2])
        | _, _ => Except.error PyErr.indexError
      | Except.ok Move.UP =>
        match pyGet seq1 (x - 1) with
        | some c1 => tracebackLoop M seq1 seq2 fuel (x - 1) y (a1 ++ [c1]) (a2 ++ [gapChar])
        | none => Except.error PyErr.indexError
      | Except.ok Move.LEFT =>
        match pyGet seq2 (y - 1) with
        | some c2 => tracebackLoop M seq1 seq2 fuel x (y - 1) (a1 ++ [gapChar]) (a2 ++ [c2])
        | none => Except.error PyErr.indexError := by
  rfl

theorem pyGet_seq_some {s : List Char} {x len : Nat} (hlen : s.length = len)
    (hx1 : 1 ≤ x) (hx : x < len + 1) :
    pyGet s ((x : Int) - 1) = some (s.getD (x - 1) (Char.ofNat 0)) := by
  have e1 : (x : Int) - 1 = ((x - 1 : Nat) : Int) := by omega
  rw [e1, pyGet_nat _ _ (by omega), list_get?_eq_some_getD _ _ (by omega)]

/-- On a good matrix the traceback loop terminates within `x + y` steps
(each move strictly decreases `x + y`), never leaves the interior, and
ends at coordinates that are still at least 1. -/
theorem loop_good {rows cols : Nat} {M : List (List Int)} {seq1 seq2 : List Char}
    (hG : GoodM rows cols M) (hr : rows = seq1.length + 1) (hc : cols = seq2.length + 1) :
    ∀ fuel x y (a1 a2 : List Char), 1 ≤ x → x < rows → 1 ≤ y → y < cols →
      x + y ≤ fuel →
      ∃ (A1 A2 : List Char) (xf yf : Nat),
        tracebackLoop M seq1 seq2 fuel (x : Int) (y : Int) a1 a2 =
          Except.ok (A1, A2, (xf : Int), (yf : Int)) ∧
        1 ≤ xf ∧ xf < rows ∧ 1 ≤ yf ∧ yf < cols := by
  intro fuel
  induction fuel with
  | zero =>
    intro x y a1 a2 hx1 hx hy1 hy hfuel
    omega
  | succ fuel ih =>
    intro x y a1 a2 hx1 hx hy1 hy hfuel
    obtain ⟨mv, hmv, hDb, hUb, hLb⟩ := next_move_good hG hx1 hx hy1 hy
    rw [tracebackLoop_succ, hmv]
    cases mv with
    | END => exact ⟨a1, a2, x, y, rfl, hx1, hx, hy1, hy⟩
    | DIAG =>
      obtain ⟨hx2, hy2⟩ := hDb rfl
      have hs1 := @pyGet_seq_some seq1 x seq1.length rfl hx1 (by omega)
      have hs2 := @pyGet_seq_some seq2 y seq2.length rfl hy1 (by omega)
      rw [hs1, hs2]
      dsimp only
      have e1 : (x : Int) - 1 = ((x - 1 : Nat) : Int) := by omega
      have e2 : (y : Int) - 1 = ((y - 1 : Nat) : Int) := by omega
      rw [e1, e2]
      exact ih (x - 1) (y - 1) _ _ (by omega) (by omega) (by omega) (by omega) (by omega)
    | UP =>
      have hx2 := hUb rfl
      have hs1 := @pyGet_seq_some seq1 x seq1.length rfl hx1 (by omega)
      rw [hs1]
      dsimp only
      have e1 : (x : Int) - 1 = ((x - 1 : Nat) : Int) := by omega
      rw [e1]
      exact ih (x - 1) y _ _ (by omega) (by omega) hy1 hy (by omega)
    | LEFT =>
      have hy2 := hLb rfl
      have hs2 := @pyGet_seq_some seq2 y seq2.length rfl hy1 (by omega)
      rw [hs2]
      dsimp only
      have e2 : (y : Int) - 1 = ((y - 1 : Nat) : Int) := by omega
      rw [e2]
      exact ih x (y - 1) _ _ hx1 hx (by omega) (by omega) (by omega)

/-- Whatever the matrix and sequences, every loop exit keeps the two
accumulators' length difference: each move appends one symbol to both. -/
theorem loop_len {M : List (List Int)} {seq1 seq2 : List Char} :
    ∀ fuel (x y : Int) (a1 a2 A1 A2 : List Char) (xf yf : Int),
      tracebackLoop M seq1 seq2 fuel x y a1 a2 = Except.ok (A1, A2, xf, yf) →
      A1.length + a2.length = A2.length + a1.length := by
  intro fuel
  induction fuel with
  | zero =>
    intro x y a1 a2 A1 A2 xf yf h
    exact absurd h (by simp [tracebackLoop])
  | succ fuel ih =>
    intro x y a1 a2 A1 A2 xf yf h
    rw [tracebackLoop_succ] at h
    cases hmv : _next_move M x y with
    | error e =>
      rw [hmv] at h
      exact absurd h (by simp)
    | ok mv =>
      rw [hmv] at h
      cases mv with
      | END =>
        simp only [Except.ok.injEq, Prod.mk.injEq] at h
        obtain ⟨h1, h2, -⟩ := h
        rw [h1, h2]
        omega
      | DIAG =>
        cases hp1 : pyGet seq1 (x - 1) with
        | none =>
          rw [hp1] at h
          cases hp2 : pyGet seq2 (y - 1) <;> rw [hp2] at h <;> exact absurd h (by simp)
        | some c1 =>
          cases hp2 : pyGet seq2 (y - 1) with
          | none =>
            rw [hp1, hp2] at h
            exact absurd h (by simp)
          | some c2 =>
            rw [hp1, hp2] at h
            dsimp only at h
            have hrec := ih _ _ _ _ _ _ _ _ h
            simp only [List.length_append, List.length_cons, List.length_nil] at hrec ⊢
            omega
      | UP =>
        cases hp1 : pyGet seq1 (x - 1) with
        | none =>
          rw [hp1] at h
          exact absurd h (by simp)
        | some c1 =>
          rw [hp1] at h
          dsimp only at h
          have hrec := ih _ _ _ _ _ _ _ _ h
          simp only [List.length_append, List.length_cons, List.length_nil] at hrec ⊢
          omega
      | LEFT =>
        cases hp2 : pyGet seq2 (y - 1) with
        | none =>
          rw [hp2] at h
          exact absurd h (by simp)
        | some c2 =>
          rw [hp2] at h
          dsimp only at h
          have hrec := ih _ _ _ _ _ _ _ _ h
          simp only [List.length_append, List.length_cons, List.length_nil] at hrec ⊢
          omega

/-- Any normal return of `_traceback` carries two aligned lists of equal
length: the loop appends to both lists at every move, and the final
(unconditional) append adds one symbol to each. -/
theorem traceback_len {M : List (List Int)} {pos : Nat × Nat} {seq1 seq2 : List Char}
    {A1 A2 : List Char}
    (h : _traceback M pos seq1 seq2 = Except.ok (A1, A2)) :
    A1.length = A2.length := by
  unfold _traceback at h
  match hl : tracebackLoop M seq1 seq2
      (pos.1 + pos.2 + 2 * M.length + 2 * (M.headD []).length + 4)
      (pos.1 : Int) (pos.2 : Int) [] [] with
  | Except.error e =>
    rw [hl] at h
    exact absurd h (by simp)
  | Except.ok (L1, L2, xf, yf) =>
    rw [hl] at h
    dsimp only at h
    have hlen := loop_len _ _ _ _ _ _ _ _ _ hl
    cases hp1 : pyGet seq1 (xf - 1) with
    | none =>
      rw [hp1] at h
      cases hp2 : pyGet seq2 (yf - 1) <;> rw [hp2] at h <;> exact absurd h (by simp)
    | some c1 =>
      cases hp2 : pyGet seq2 (yf - 1) with
      | none =>
        rw [hp1, hp2] at h
        exact absurd h (by simp)
      | some c2 =>
        rw [hp1, hp2] at h
        dsimp only at h
        simp only [Except.ok.injEq, Prod.mk.injEq] at h
        obtain ⟨h1, h2⟩ := h
        rw [← h1, ← h2]
        simp only [List.length_reverse, List.length_append, List.length_cons,
          List.length_nil] at hlen ⊢
        omega

/-- On a matrix built by `_create_score_matrix`, `_traceback` returns
normally from the recorded endpoint. -/
theorem traceback_ok_of_good {rows cols : Nat} {M : List (List Int)}
    {seq1 seq2 : List Char} (hG : GoodM rows cols M)
    (hr : rows = seq1.length + 1) (hc : cols = seq2.length + 1)
    {x0 y0 : Nat} (hx1 : 1 ≤ x0) (hx : x0 < rows) (hy1 : 1 ≤ y0) (hy : y0 < cols) :
    ∃ A1 A2, _traceback M (x0, y0) seq1 seq2 = Except.ok (A1, A2) := by
  obtain ⟨A1, A2, xf, yf, hl, hxf1, hxf, hyf1, hyf⟩ :=
    loop_good hG hr hc
      (x0 + y0 + 2 * M.length + 2 * (M.headD []).length + 4) x0 y0 [] []
      hx1 hx hy1 hy (by omega)
  unfold _traceback
  dsimp only at hl ⊢
  rw [hl]
  dsimp only
  rw [@pyGet_seq_some seq1 xf seq1.length rfl hxf1 (by omega),
    @pyGet_seq_some seq2 yf seq2.length rfl hyf1 (by omega)]
  exact ⟨_, _, rfl⟩

/-- `align` on top of a successful `_create_score_matrix`: the traceback
succeeds, the length assertion passes, and the returned score is the
matrix entry at the recorded endpoint. -/
theorem align_ok_of_create {seq1 seq2 : List Char} {M : List (List Int)} {p q : Nat}
    (h : _create_score_matrix (seq1.length + 1) (seq2.length + 1) seq1 seq2 =
      Except.ok (M, p, q)) :
    ∃ A1 A2, align seq1 seq2 = Except.ok (A1, A2, getc M p q) := by
  have hG := create_good h
  obtain ⟨hS, hent, hp1, hp, hq1, hq, -, -, -⟩ := create_ok_spec h
  obtain ⟨A1, A2, htb⟩ := traceback_ok_of_good hG rfl rfl hp1 hp hq1 hq
  have hlen := traceback_len htb
  refine ⟨A1, A2, ?_⟩
  unfold align
  rw [h]
  dsimp only
  rw [pyGet2_getc hS hp hq, htb]
  dsimp only
  rw [if_pos hlen]

/-- The three move-selection conditions of `_next_move` are exhaustive
for any integer values of the three neighbours, so when the three
neighbour reads succeed the result is a move, and the only possible
error is an `IndexError` from the reads: the `ValueError` branch is
unreachable for every matrix and every position. -/
theorem next_move_no_value_error (M : List (List Int)) (x y : Int) :
    (∃ mv, _next_move M x y = Except.ok mv) ∨
      _next_move M x y = Except.error PyErr.indexError := by
  unfold _next_move
  cases hd : pyGet2 M (x - 1) (y - 1) with
  | none => exact Or.inr rfl
  | some diag =>
    cases hu : pyGet2 M (x - 1) y with
    | none => exact Or.inr rfl
    | some up =>
      cases hl : pyGet2 M x (y - 1) with
      | none => exact Or.inr rfl
      | some left =>
        left
        dsimp only
        by_cases c1 : diag ≥ up ∧ diag ≥ left
        · rw [if_pos c1]
          exact ⟨_, rfl⟩
        · rw [if_neg c1]
          by_cases c2 : up > diag ∧ up ≥ left
          · rw [if_pos c2]
            exact ⟨_, rfl⟩
          · rw [if_neg c2]
            by_cases c3 : left > diag ∧ left > up
            · rw [if_pos c3]
              exact ⟨_, rfl⟩
            · exfalso
              push_neg at c1 c2 c3
              omega

theorem cellRec_le_two_min (seq1 seq2 : List Char) :
    ∀ x y, cellRec seq1 seq2 x y ≤ 2 * ((min x y : Nat) : Int)
  | 0, y => by
    rw [cellRec_zero_left]
    positivity
  | x + 1, 0 => by
    rw [cellRec_zero_right]
    positivity
  | x + 1, y + 1 => by
    have h1 := cellRec_le_two_min seq1 seq2 x y
    have h2 := cellRec_le_two_min seq1 seq2 x (y + 1)
    have h3 := cellRec_le_two_min seq1 seq2 (x + 1) y
    have e1 : ((min (x + 1) (y + 1) : Nat) : Int) = ((min x y : Nat) : Int) + 1 := by
      have : min (x + 1) (y + 1) = min x y + 1 := by omega
      rw [this]
      push_cast
      ring
    have e2 : ((min x (y + 1) : Nat) : Int) ≤ ((min x y : Nat) : Int) + 1 := by
      have : min x (y + 1) ≤ min x y + 1 := by omega
      exact_mod_cast this
    have e3 : ((min (x + 1) y : Nat) : Int) ≤ ((min x y : Nat) : Int) + 1 := by
      have : min (x + 1) y ≤ min x y + 1 := by omega
      exact_mod_cast this
    have hm : (0 : Int) ≤ ((min x y : Nat) : Int) := by positivity
    rw [cellRec_succ]
    by_cases hsim : sget seq1 x = sget seq2 y
    · rw [if_pos hsim]
      omega
    · rw [if_neg hsim]
      omega
termination_by x y => x + y
decreasing_by all_goals omega

theorem cellRec_diag_self (s : List Char) : ∀ i, cellRec s s i i = 2 * (i : Int)
  | 0 => by simp [cellRec]
  | i + 1 => by
    have hd := cellRec_diag_self s i
    have h2 := cellRec_le_two_min s s i (i + 1)
    have h3 := cellRec_le_two_min s s (i + 1) i
    have e2 : ((min i (i + 1) : Nat) : Int) = (i : Int) := by
      have : min i (i + 1) = i := by omega
      exact_mod_cast congrArg Nat.cast this
    have e3 : ((min (i + 1) i : Nat) : Int) = (i : Int) := by
      have : min (i + 1) i = i := by omega
      exact_mod_cast congrArg Nat.cast this
    rw [cellRec_succ, if_pos rfl, hd]
    rw [e2] at h2
    rw [e3] at h3
    have : ((i : Nat) : Int) + 1 = ((i + 1 : Nat) : Int) := by push_cast; ring
    omega

theorem cellRec_offdiag_lt (s : List Char) {n a b : Nat} (ha : a ≤ n) (hb : b ≤ n)
    (hne : ¬(a = n ∧ b = n)) : cellRec s s a b < 2 * (n : Int) := by
  have h := cellRec_le_two_min s s a b
  have hmin : min a b < n := by omega
  have hmin2 : ((min a b : Nat) : Int) < (n : Int) := by exact_mod_cast hmin
  omega

/-- On a self-alignment the recorded endpoint is the bottom-right corner:
the diagonal cell `(n, n)` holds `2n`, the unique global maximum. -/
theorem create_identity {s : List Char} (hs : s ≠ []) :
    ∃ M, _create_score_matrix (s.length + 1) (s.length + 1) s s =
        Except.ok (M, s.length, s.length) ∧
      (∀ a b, a ≤ s.length → b ≤ s.length → getc M a b = cellRec s s a b) := by
  have hn1 : 1 ≤ s.length := List.length_pos.mpr hs
  have hdiag := cellRec_diag_self s s.length
  have hpos : 0 < cellRec s s s.length s.length := by
    rw [hdiag]
    have : (1 : Int) ≤ (s.length : Int) := by exact_mod_cast hn1
    omega
  obtain ⟨M, p, q, h⟩ := @create_ok_of_pos (s.length + 1) (s.length + 1) s s
    s.length s.length (by omega) (by omega) hpos
  obtain ⟨hS, hent, hp1, hp, hq1, hq, hposm, hle, -⟩ := create_ok_spec h
  have hmax : cellRec s s s.length s.length ≤ cellRec s s p q :=
    hle s.length s.length (by omega) (by omega)
  have hpq : p = s.length ∧ q = s.length := by
    by_contra hne
    have := cellRec_offdiag_lt s (show p ≤ s.length by omega)
      (show q ≤ s.length by omega) hne
    rw [hdiag] at hmax
    omega
  obtain ⟨rfl, rfl⟩ := hpq
  exact ⟨M, h, fun a b ha hb => hent a b (by omega) (by omega)⟩

/-- On a self-alignment the traceback walks the main diagonal: from
`(i, i)` it always moves DIAG down to `(1, 1)`, where it stops, having
appended `s[i-1], …, s[1]` to both accumulators. -/
theorem loop_identity {s : List Char} {M : List (List Int)}
    (hS : Shape (s.length + 1) (s.length + 1) M)
    (hent : ∀ a b, a ≤ s.length → b ≤ s.length → getc M a b = cellRec s s a b) :
    ∀ i, 1 ≤ i → i ≤ s.length → ∀ (fuel : Nat) (a1 a2 : List Char), i ≤ fuel →
      tracebackLoop M s s fuel (i : Int) (i : Int) a1 a2 =
        Except.ok (a1 ++ ((s.drop 1).take (i - 1)).reverse,
          a2 ++ ((s.drop 1).take (i - 1)).reverse, (1 : Int), (1 : Int)) := by
  intro i
  induction i with
  | zero => omega
  | succ i ih =>
    intro hi1 hin fuel a1 a2 hfuel
    obtain ⟨f, rfl⟩ : ∃ f, fuel = f + 1 := ⟨fuel - 1, by omega⟩
    have ed : ((i + 1 : Nat) : Int) - 1 = ((i : Nat) : Int) := by push_cast; ring
    have hdval : getc M i i = 2 * (i : Int) := by
      rw [hent i i (by omega) (by omega), cellRec_diag_self]
    have huval : getc M i (i + 1) ≤ 2 * (i : Int) := by
      rw [hent i (i + 1) (by omega) (by omega)]
      have := cellRec_le_two_min s s i (i + 1)
      have e : ((min i (i + 1) : Nat) : Int) = (i : Int) := by
        have h0 : min i (i + 1) = i := by omega
        exact_mod_cast congrArg Nat.cast h0
      omega
    have hlval : getc M (i + 1) i ≤ 2 * (i : Int) := by
      rw [hent (i + 1) i (by omega) (by omega)]
      have := cellRec_le_two_min s s (i + 1) i
      have e : ((min (i + 1) i : Nat) : Int) = (i : Int) := by
        have h0 : min (i + 1) i = i := by omega
        exact_mod_cast congrArg Nat.cast h0
      omega
    have hmv0 : _next_move M ((i + 1 : Nat) : Int) ((i + 1 : Nat) : Int) =
        Except.ok (if getc M i i ≠ 0 then Move.DIAG else Move.END) := by
      unfold _next_move
      rw [ed]
      rw [pyGet2_getc hS (by omega) (by omega), pyGet2_getc hS (by omega) (by omega),
        pyGet2_getc hS (by omega) (by omega)]
      dsimp only
      rw [if_pos (by constructor <;> omega)]
    rcases Nat.eq_zero_or_pos i with rfl | hi2
    · -- position (1, 1): END, no further symbols
      have hmv : _next_move M ((1 : Nat) : Int) ((1 : Nat) : Int) = Except.ok Move.END := by
        rw [hmv0]
        have h00 : getc M 0 0 = 0 := by rw [hent 0 0 (by omega) (by omega), cellRec_zero_left]
        rw [h00]
        simp
      rw [tracebackLoop_succ, hmv]
      simp
    · -- position (i+1, i+1) with i ≥ 1: DIAG then induction
      have hdnz : getc M i i ≠ 0 := by
        rw [hdval]
        have : (1 : Int) ≤ (i : Int) := by exact_mod_cast hi2
        omega
      have hmv : _next_move M ((i + 1 : Nat) : Int) ((i + 1 : Nat) : Int) =
          Except.ok Move.DIAG := by
        rw [hmv0, if_pos hdnz]
      rw [tracebackLoop_succ, hmv]
      have hs1 : pyGet s (((i + 1 : Nat) : Int) - 1) = some (s.getD i (Char.ofNat 0)) := by
        rw [ed, pyGet_nat _ _ (by omega), list_get?_eq_some_getD _ _ (by omega)]
      rw [hs1]
      dsimp only
      rw [ed]
      rw [ih hi2 (by omega) f _ _ (by omega)]
      have htake : (s.drop 1).take (i + 1 - 1) =
          (s.drop 1).take (i - 1) ++ [s.getD i (Char.ofNat 0)] := by
        have hi' : i + 1 - 1 = (i - 1) + 1 := by omega
        rw [hi', List.take_succ]
        have hget : (s.drop 1)[i - 1]? = some (s.getD i (Char.ofNat 0)) := by
          rw [List.getElem?_drop]
          have e1 : 1 + (i - 1) = i := by omega
          rw [e1, ← List.get?_eq_getElem?]
          exact list_get?_eq_some_getD s (Char.ofNat 0) (by omega)
        rw [hget]
        rfl
      rw [htake]
      simp [List.append_assoc]

theorem cons_getD_take {s : List Char} (hs : s ≠ []) (d : Char) :
    s.getD 0 d :: (s.drop 1).take (s.length - 1) = s := by
  cases s with
  | nil => exact absurd rfl hs
  | cons hd tl =>
    simp [List.take_length]

/-- The identity alignment: `align s s` succeeds, the traceback follows
the main diagonal, both aligned sequences come back equal to `s` and the
score is `2 * len(s)`. -/
theorem align_identity {s : List Char} (hs : s ≠ []) :
    align s s = Except.ok (s, s, 2 * (s.length : Int)) := by
  have hn1 : 1 ≤ s.length := List.length_pos.mpr hs
  obtain ⟨M, hcr, hent⟩ := create_identity hs
  have hS : Shape (s.length + 1) (s.length + 1) M := (create_ok_spec hcr).1
  have hscore : getc M s.length s.length = 2 * (s.length : Int) := by
    rw [hent s.length s.length (le_refl _) (le_refl _), cellRec_diag_self]
  have hloop := loop_identity hS hent s.length hn1 (le_refl _)
    (s.length + s.length + 2 * M.length + 2 * (M.headD []).length + 4) [] []
    (by omega)
  have htb : _traceback M (s.length, s.length) s s = Except.ok (s, s) := by
    unfold _traceback
    dsimp only
    rw [hloop]
    dsimp only
    have h1 : pyGet s (((1 : Nat) : Int) - 1) = some (s.getD 0 (Char.ofNat 0)) := by
      have e : ((1 : Nat) : Int) - 1 = ((0 : Nat) : Int) := by omega
      rw [e, pyGet_nat _ _ (by omega), list_get?_eq_some_getD _ _ (by omega)]
    have h1' : pyGet s ((1 : Int) - 1) = some (s.getD 0 (Char.ofNat 0)) := by
      exact_mod_cast h1
    rw [h1']
    dsimp only
    have hrev : (([] ++ ((s.drop 1).take (s.length - 1)).reverse) ++
        [s.getD 0 (Char.ofNat 0)]).reverse = s := by
      simp only [List.nil_append, List.reverse_append, List.reverse_reverse,
        List.reverse_cons, List.reverse_nil, List.nil_append]
      exact cons_getD_take hs (Char.ofNat 0)
    rw [hrev]
  unfold align
  rw [hcr]
  dsimp only
  rw [pyGet2_getc hS (by omega) (by omega), htb]
  dsimp only
  rw [if_pos rfl, hscore]


theorem alignment_fold (l : List (Char × Char)) :
    ∀ acc : List Char × Nat × Nat × Nat,
      l.foldl alignment_step acc =
        (acc.1 ++ l.map markOf,
         acc.2.1 + (l.countP fun p => decide (p.1 = p.2)),
         acc.2.2.1 + (l.countP fun p =>
           !decide (p.1 = p.2) && (decide (p.1 = gapChar) || decide (p.2 = gapChar))),
         acc.2.2.2 + (l.countP fun p =>
           !decide (p.1 = p.2) && (!decide (p.1 = gapChar) && !decide (p.2 = gapChar)))) := by
  induction l with
  | nil =>
    intro acc
    simp
  | cons hd tl ih =>
    intro acc
    rw [List.foldl_cons, ih, List.countP_cons, List.countP_cons, List.countP_cons,
      List.map_cons]
    unfold alignment_step markOf
    by_cases h1 : hd.1 = hd.2
    · rw [if_pos h1, if_pos h1]
      simp only [Prod.mk.injEq]
      refine ⟨by simp, ?_, ?_, ?_⟩ <;> simp [h1] <;> try omega
    · rw [if_neg h1, if_neg h1]
      by_cases h2 : hd.1 = gapChar ∨ hd.2 = gapChar
      · rw [if_pos h2, if_pos h2]
        rcases h2 with h2 | h2
        · have h1g : ¬ gapChar = hd.2 := fun h => h1 (h2.trans h)
          simp only [Prod.mk.injEq]
          refine ⟨by simp, ?_, ?_, ?_⟩ <;> simp [h1, h1g, h2] <;> try omega
        · have h1g : ¬ hd.1 = gapChar := fun h => h1 (h.trans h2.symm)
          simp only [Prod.mk.injEq]
          refine ⟨by simp, ?_, ?_, ?_⟩ <;> simp [h1, h1g, h2] <;> try omega
      · rw [if_neg h2, if_neg h2]
        push_neg at h2
        simp only [Prod.mk.injEq]
        refine ⟨by simp, ?_, ?_, ?_⟩ <;> simp [h1, h2.1, h2.2] <;> try omega

theorem countP_partition_three (l : List (Char × Char)) :
    (l.countP fun p => decide (p.1 = p.2)) +
      (l.countP fun p =>
        !decide (p.1 = p.2) && (decide (p.1 = gapChar) || decide (p.2 = gapChar))) +
      (l.countP fun p =>
        !decide (p.1 = p.2) && (!decide (p.1 = gapChar) && !decide (p.2 = gapChar))) =
      l.length := by
  induction l with
  | nil => simp
  | cons hd tl ih =>
    rw [List.countP_cons, List.countP_cons, List.countP_cons, List.length_cons]
    by_cases h1 : hd.1 = hd.2
    · simp [h1]
      omega
    · have swap2 : ∀ c : Char, ¬ c = gapChar → ¬ gapChar = c := fun c h hh => h hh.symm
      by_cases hg1 : hd.1 = gapChar
      · by_cases hg2 : hd.2 = gapChar
        · simp [h1, hg1, hg2] <;> try omega
        · simp [h1, hg1, hg2, swap2 _ hg2]
          omega
      · by_cases hg2 : hd.2 = gapChar
        · simp [h1, hg1, hg2, swap2 _ hg1] <;> try omega
        · simp [h1, hg1, hg2, swap2 _ hg1, swap2 _ hg2]
          omega

theorem calc_score_eq_cellRec {seq1 seq2 : List Char} {M : List (List Int)}
    (hent : ∀ a b, a < seq1.length + 1 → b < seq2.length + 1 →
      getc M a b = cellRec seq1 seq2 a b)
    {i j : Nat} (hi1 : 1 ≤ i) (hi : i ≤ seq1.length) (hj1 : 1 ≤ j) (hj : j ≤ seq2.length) :
    calc_score seq1 seq2 M i j = cellRec seq1 seq2 i j := by
  rw [cellRec_interior seq1 seq2 hi1 hj1]
  unfold calc_score
  rw [hent (i - 1) (j - 1) (by omega) (by omega), hent (i - 1) j (by omega) (by omega),
    hent i (j - 1) (by omega) (by omega)]

/-- C1: for sequences of lengths m and n, the matrix returned by
`_create_score_matrix` has m+1 rows of n+1 entries, row 0 and column 0
are all zero, and every interior cell satisfies the recurrence
`cell(i,j) = max(0, diag+similarity, up+gap, left+gap)` computed by
`calc_score` (match +2, mismatch −1, gap −1) on the matrix itself. -/
theorem C1_matrix_dimensions_boundary_recurrence (seq1 seq2 : List Char)
    (M : List (List Int)) (p q : Nat)
    (h : _create_score_matrix (seq1.length + 1) (seq2.length + 1) seq1 seq2 =
      Except.ok (M, p, q)) :
    M.length = seq1.length + 1 ∧
    (∀ row ∈ M, row.length = seq2.length + 1) ∧
    (∀ j, j ≤ seq2.length → getc M 0 j = 0) ∧
    (∀ i, i ≤ seq1.length → getc M i 0 = 0) ∧
    (∀ i j, 1 ≤ i → i ≤ seq1.length → 1 ≤ j → j ≤ seq2.length →
      getc M i j = calc_score seq1 seq2 M i j) := by
  obtain ⟨hS, hent, -, -, -, -, -, -, -⟩ := create_ok_spec h
  refine ⟨hS.1, hS.2, ?_, ?_, ?_⟩
  · intro j hj
    rw [hent 0 j (by omega) (by omega), cellRec_zero_left]
  · intro i hi
    rw [hent i 0 (by omega) (by omega), cellRec_zero_right]
  · intro i j hi1 hi hj1 hj
    rw [hent i j (by omega) (by omega), calc_score_eq_cellRec hent hi1 hi hj1 hj]

theorem C1_matrix_dimensions_boundary_recurrence_witness :
    _create_score_matrix 2 2 ['A'] ['A'] = Except.ok ([[0, 0], [0, 2]], 1, 1) ∧
    ([[0, 0], [0, 2]] : List (List Int)).length = 2 ∧
    (∀ row ∈ ([[0, 0], [0, 2]] : List (List Int)), row.length = 2 ∧ True) ∧
    (∀ i j, 1 ≤ i → i ≤ 1 → 1 ≤ j → j ≤ 1 →
      getc [[0, 0], [0, 2]] i j = calc_score ['A'] ['A'] [[0, 0], [0, 2]] i j) := by
  have h := C1_matrix_dimensions_boundary_recurrence ['A'] ['A'] [[0, 0], [0, 2]] 1 1 rfl
  exact ⟨rfl, h.1, fun row hrow => ⟨h.2.1 row hrow, trivial⟩, h.2.2.2.2⟩

/-- C2: whenever `_create_score_matrix` returns an endpoint, the matrix
value there is positive, it is the global maximum over all cells, and
every cell scanned earlier in row-major order holds a strictly smaller
value — so the endpoint is the first cell attaining the maximum and
later ties never move it. -/
theorem C2_endpoint_first_row_major_maximum (seq1 seq2 : List Char)
    (M : List (List Int)) (p q : Nat)
    (h : _create_score_matrix (seq1.length + 1) (seq2.length + 1) seq1 seq2 =
      Except.ok (M, p, q)) :
    0 < getc M p q ∧
    (∀ a b, a ≤ seq1.length → b ≤ seq2.length → getc M a b ≤ getc M p q) ∧
    (∀ a b, a ≤ seq1.length → b ≤ seq2.length → rmLt a b p q →
      getc M a b < getc M p q) := by
  obtain ⟨hS, hent, hp1, hp, hq1, hq, hpos, hle, hstrict⟩ := create_ok_spec h
  refine ⟨?_, ?_, ?_⟩
  · rw [hent p q (by omega) (by omega)]
    exact hpos
  · intro a b ha hb
    rw [hent a b (by omega) (by omega), hent p q (by omega) (by omega)]
    exact hle a b (by omega) (by omega)
  · intro a b ha hb hlt
    rw [hent a b (by omega) (by omega), hent p q (by omega) (by omega)]
    exact hstrict a b (by omega) (by omega) hlt

theorem C2_endpoint_first_row_major_maximum_witness :
    _create_score_matrix 3 2 ['A', 'A'] ['A'] = Except.ok ([[0, 0], [0, 2], [0, 2]], 1, 1) ∧
    0 < getc [[0, 0], [0, 2], [0, 2]] 1 1 ∧
    (∀ a b, a ≤ 2 → b ≤ 1 → rmLt a b 1 1 →
      getc [[0, 0], [0, 2], [0, 2]] a b < getc [[0, 0], [0, 2], [0, 2]] 1 1) := by
  have h := C2_endpoint_first_row_major_maximum ['A', 'A'] ['A']
    [[0, 0], [0, 2], [0, 2]] 1 1 rfl
  exact ⟨rfl, h.1, h.2.2⟩

/-- C3: the claim says the final pair is appended only when both
coordinates are positive, with no wrap-around indexing; the code appends
it unconditionally. On the matrix `[[0,1],[0,0]]` with endpoint (1,1)
and sequences "AB"/"AB" the loop ends at x = 0, and the source still
appends `(seq1[-1], seq2[0]) = ('B', 'A')` — Python's negative-index
wrap — yielding ("BA", "A-") where the claim requires ("A", "-"). -/
theorem C3_traceback_wraparound_append :
    _traceback [[0, 1], [0, 0]] (1, 1) ['A', 'B'] ['A', 'B'] =
      Except.ok (['B', 'A'], ['A', '-']) := by
  rfl

/-- C4: `align("", "x")` and `align("x", "")` do not produce a typed
NoAlignmentFound outcome: the all-zero matrix leaves `max_pos` as
`None` and the `assert max_pos is not None` in `_create_score_matrix`
fails, an assertion-failure crash propagated out of `align`. -/
theorem C4_align_empty_raises_assertion :
    align [] ['x'] = Except.error
      (PyErr.assertionError "the x, y position with the highest score was not found") ∧
    align ['x'] [] = Except.error
      (PyErr.assertionError "the x, y position with the highest score was not found") := by
  exact ⟨rfl, rfl⟩

/-- C5: every cell of the matrix `align` builds is non-negative, and the
integer score `align` returns equals the maximum value occurring
anywhere in the matrix (it is an upper bound on every cell and is
attained by some cell). -/
theorem C5_cells_nonneg_and_score_is_max (seq1 seq2 : List Char)
    (M : List (List Int)) (p q : Nat) (a1 a2 : List Char) (sc : Int)
    (hM : _create_score_matrix (seq1.length + 1) (seq2.length + 1) seq1 seq2 =
      Except.ok (M, p, q))
    (hA : align seq1 seq2 = Except.ok (a1, a2, sc)) :
    (∀ a b, a ≤ seq1.length → b ≤ seq2.length → 0 ≤ getc M a b) ∧
    (∀ a b, a ≤ seq1.length → b ≤ seq2.length → getc M a b ≤ sc) ∧
    (∃ a b, a ≤ seq1.length ∧ b ≤ seq2.length ∧ getc M a b = sc) := by
  obtain ⟨A1, A2, hA2⟩ := align_ok_of_create hM
  rw [hA2] at hA
  simp only [Except.ok.injEq, Prod.mk.injEq] at hA
  obtain ⟨-, -, hsc⟩ := hA
  obtain ⟨hS, hent, hp1, hp, hq1, hq, hpos, hle, -⟩ := create_ok_spec hM
  refine ⟨?_, ?_, ⟨p, q, by omega, by omega, hsc⟩⟩
  · intro a b ha hb
    rw [hent a b (by omega) (by omega)]
    exact cellRec_nonneg seq1 seq2 a b
  · intro a b ha hb
    rw [← hsc, hent a b (by omega) (by omega), hent p q (by omega) (by omega)]
    exact hle a b (by omega) (by omega)

theorem C5_cells_nonneg_and_score_is_max_witness :
    _create_score_matrix 2 2 ['A'] ['A'] = Except.ok ([[0, 0], [0, 2]], 1, 1) ∧
    align ['A'] ['A'] = Except.ok (['A'], ['A'], 2) ∧
    (∀ a b, a ≤ 1 → b ≤ 1 → 0 ≤ getc [[0, 0], [0, 2]] a b) ∧
    (∃ a b, a ≤ 1 ∧ b ≤ 1 ∧ getc [[0, 0], [0, 2]] a b = 2) := by
  have h := C5_cells_nonneg_and_score_is_max ['A'] ['A'] [[0, 0], [0, 2]] 1 1
    ['A'] ['A'] 2 rfl rfl
  exact ⟨rfl, rfl, h.1, h.2.2⟩

/-- C6: both for `_traceback` directly and for `align`, any normally
returned aligned pair has `len(alignedSeq1) == len(alignedSeq2)`: every
loop move appends one symbol to each list and the final append adds one
to each. -/
theorem C6_aligned_lengths_equal :
    (∀ (M : List (List Int)) (pos : Nat × Nat) (seq1 seq2 a1 a2 : List Char),
      _traceback M pos seq1 seq2 = Except.ok (a1, a2) → a1.length = a2.length) ∧
    (∀ (seq1 seq2 a1 a2 : List Char) (sc : Int),
      align seq1 seq2 = Except.ok (a1, a2, sc) → a1.length = a2.length) := by
  constructor
  · intro M pos seq1 seq2 a1 a2 h
    exact traceback_len h
  · intro seq1 seq2 a1 a2 sc h
    unfold align at h
    cases hcr : _create_score_matrix (seq1.length + 1) (seq2.length + 1) seq1 seq2 with
    | error e =>
      rw [hcr] at h
      exact absurd h (by simp)
    | ok r =>
      obtain ⟨M, pos⟩ := r
      rw [hcr] at h
      dsimp only at h
      cases hsc : pyGet2 M (pos.1 : Int) (pos.2 : Int) with
      | none =>
        rw [hsc] at h
        exact absurd h (by simp)
      | some score =>
        rw [hsc] at h
        dsimp only at h
        cases htb : _traceback M pos seq1 seq2 with
        | error e =>
          rw [htb] at h
          exact absurd h (by simp)
        | ok r2 =>
          obtain ⟨A1, A2⟩ := r2
          rw [htb] at h
          dsimp only at h
          by_cases hlen : A1.length = A2.length
          · rw [if_pos hlen] at h
            simp only [Except.ok.injEq, Prod.mk.injEq] at h
            obtain ⟨h1, h2, -⟩ := h
            rw [← h1, ← h2]
            exact hlen
          · rw [if_neg hlen] at h
            exact absurd h (by simp)

/-- C7: for every non-empty sequence s, `align(s, s)` returns both
aligned sequences equal to s itself and score `2 * len(s)`. -/
theorem C7_align_self_identity (s : List Char) (hs : s ≠ []) :
    align s s = Except.ok (s, s, 2 * (s.length : Int)) :=
  align_identity hs

theorem C7_align_self_identity_witness :
    (['A', 'C'] : List Char) ≠ [] ∧
    align ['A', 'C'] ['A', 'C'] = Except.ok (['A', 'C'], ['A', 'C'], 4) := by
  refine ⟨by decide, ?_⟩
  have h := C7_align_self_identity ['A', 'C'] (by decide)
  exact h

/-- C8 counterexample: the claim counts an identity only for identical
NON-GAP symbols and a gap when either side is the gap symbol; on the
pair ("-", "-") the source checks `base1 == base2` first, so it marks a
bar and counts an identity, where the claim requires a blank and a gap.
`alignment_string_spec` renders the claim's own rule. -/
theorem C8_gap_gap_position_counterexample :
    _alignment_string ['-'] ['-'] = (['|'], 1, 0, 0) ∧
    alignment_string_spec ['-'] ['-'] = ([' '], 0, 1, 0) ∧
    _alignment_string ['-'] ['-'] ≠ alignment_string_spec ['-'] ['-'] := by
  exact ⟨rfl, rfl, by decide⟩

/-- C8 (amended): position i is marked with a bar and counted as an
identity exactly when the two symbols are identical — including the
pair of two gap symbols — marked blank and counted as a gap exactly
when the symbols differ and either is the gap symbol, and marked with a
colon and counted as a mismatch otherwise; the three counters sum to
the alignment length. -/
theorem C8_alignment_string_marks_and_counts (a1 a2 : List Char)
    (h : a1.length = a2.length) :
    _alignment_string a1 a2 =
      ((a1.zip a2).map markOf,
       (a1.zip a2).countP (fun p => decide (p.1 = p.2)),
       (a1.zip a2).countP (fun p =>
         !decide (p.1 = p.2) && (decide (p.1 = gapChar) || decide (p.2 = gapChar))),
       (a1.zip a2).countP (fun p =>
         !decide (p.1 = p.2) && (!decide (p.1 = gapChar) && !decide (p.2 = gapChar)))) ∧
    (_alignment_string a1 a2).2.1 + (_alignment_string a1 a2).2.2.1 +
      (_alignment_string a1 a2).2.2.2 = a1.length := by
  have hf := alignment_fold (a1.zip a2) ([], 0, 0, 0)
  have hz : (a1.zip a2).length = a1.length := by
    rw [List.length_zip, h, min_self]
  constructor
  · unfold _alignment_string
    rw [hf]
    simp
  · unfold _alignment_string
    rw [hf]
    have hp := countP_partition_three (a1.zip a2)
    simp only [List.nil_append]
    omega

theorem C8_alignment_string_marks_and_counts_witness :
    (['A', 'C', '-'] : List Char).length = (['A', '-', 'G'] : List Char).length ∧
    _alignment_string ['A', 'C', '-'] ['A', '-', 'G'] =
      ((['A', 'C', '-'].zip ['A', '-', 'G']).map markOf,
       (['A', 'C', '-'].zip ['A', '-', 'G']).countP (fun p => decide (p.1 = p.2)),
       (['A', 'C', '-'].zip ['A', '-', 'G']).countP (fun p =>
         !decide (p.1 = p.2) && (decide (p.1 = gapChar) || decide (p.2 = gapChar))),
       (['A', 'C', '-'].zip ['A', '-', 'G']).countP (fun p =>
         !decide (p.1 = p.2) && (!decide (p.1 = gapChar) && !decide (p.2 = gapChar)))) ∧
    (_alignment_string ['A', 'C', '-'] ['A', '-', 'G']).2.1 +
      (_alignment_string ['A', 'C', '-'] ['A', '-', 'G']).2.2.1 +
      (_alignment_string ['A', 'C', '-'] ['A', '-', 'G']).2.2.2 = 3 := by
  have h := C8_alignment_string_marks_and_counts ['A', 'C', '-'] ['A', '-', 'G'] rfl
  exact ⟨rfl, h.1, h.2⟩

/-- C9: the three move-selection conditions of `_next_move` are
exhaustive over any integer neighbour values, so for every matrix and
every position the function either returns a move or fails with the
`IndexError` of a neighbour read: the internal-consistency `ValueError`
branch is unreachable — in particular on every matrix produced by
`_create_score_matrix` and every position the traceback visits. -/
theorem C9_next_move_invalid_branch_unreachable (M : List (List Int)) (x y : Int) :
    (∃ mv, _next_move M x y = Except.ok mv) ∨
      _next_move M x y = Except.error PyErr.indexError :=
  next_move_no_value_error M x y

/-- C10: from the endpoint `_create_score_matrix` records, the traceback
loop reaches END within x0 + y0 moves (each move strictly decreases
x + y, so fuel x0 + y0 suffices), the final coordinates are still both
at least 1, and `_traceback` as a whole returns normally. -/
theorem C10_traceback_terminates (seq1 seq2 : List Char) (M : List (List Int))
    (x0 y0 : Nat)
    (h : _create_score_matrix (seq1.length + 1) (seq2.length + 1) seq1 seq2 =
      Except.ok (M, (x0, y0))) :
    (∃ (A1 A2 : List Char) (xf yf : Nat),
      tracebackLoop M seq1 seq2 (x0 + y0) (x0 : Int) (y0 : Int) [] [] =
        Except.ok (A1, A2, (xf : Int), (yf : Int)) ∧ 1 ≤ xf ∧ 1 ≤ yf) ∧
    (∃ r, _traceback M (x0, y0) seq1 seq2 = Except.ok r) := by
  obtain ⟨hS, hent, hp1, hp, hq1, hq, -, -, -⟩ := create_ok_spec h
  have hG := create_good h
  constructor
  · obtain ⟨A1, A2, xf, yf, hl, h1, h2, h3, h4⟩ :=
      loop_good hG rfl rfl (x0 + y0) x0 y0 [] [] hp1 hp hq1 hq (le_refl _)
    exact ⟨A1, A2, xf, yf, hl, h1, h3⟩
  · obtain ⟨A1, A2, htb⟩ := traceback_ok_of_good hG rfl rfl hp1 hp hq1 hq
    exact ⟨(A1, A2), htb⟩

theorem C10_traceback_terminates_witness :
    _create_score_matrix 2 2 ['A'] ['A'] = Except.ok ([[0, 0], [0, 2]], (1, 1)) ∧
    (∃ r, _traceback [[0, 0], [0, 2]] (1, 1) ['A'] ['A'] = Except.ok r) := by
  have h := C10_traceback_terminates ['A'] ['A'] [[0, 0], [0, 2]] 1 1 rfl
  exact ⟨rfl, h.2⟩
